import Mathlib

/-!
Shallow embedding of `src/blockchain.rs` from the Sample-BlockChain-Rust
repository, together with proofs of the specification claims about it.

Modelling conventions:
* Rust `u64` counters are modelled as `Nat` (the programs only ever
  increment them, far from overflow; no wrap-around behaviour is exercised).
* `DateTime<Utc>` values created by `Utc::now()` are nondeterministic
  runtime inputs; they are modelled as explicit `String` parameters holding
  the RFC 3339 text that `serde_json` would emit for them.
* `f64` amounts: the programs never perform arithmetic on `amount`; it is
  modelled as `Int`, serialized the way `serde_json` prints integral
  doubles (`10.0`, `-5.0`).
* `HashMap<String, Transaction>` is modelled as an association list with
  overwrite-on-insert semantics (`HashMap::insert`).
* SHA-256 is implemented concretely (FIPS 180-4) over byte lists, and the
  hex rendering matches Rust's `format!("{:x}", hasher.finalize())`.
* All strings hashed by the program are ASCII, so `String.as_bytes()` is
  modelled as the list of character codes.
-/

set_option maxRecDepth 100000

namespace SampleChain

/-! ## SHA-256 (FIPS 180-4), executable over byte lists -/

namespace SHA256

/-- The 64 round constants of FIPS 180-4 §4.2.2, written in decimal. -/
def K : List Nat :=
  [1116352408, 1899447441, 3049323471, 3921009573, 961987163,
   1508970993, 2453635748, 2870763221, 3624381080, 310598401,
   607225278, 1426881987, 1925078388, 2162078206, 2614888103,
   3248222580, 3835390401, 4022224774, 264347078, 604807628,
   770255983, 1249150122, 1555081692, 1996064986, 2554220882,
   2821834349, 2952996808, 3210313671, 3336571891, 3584528711,
   113926993, 338241895, 666307205, 773529912, 1294757372,
   1396182291, 1695183700, 1986661051, 2177026350, 2456956037,
   2730485921, 2820302411, 3259730800, 3345764771, 3516065817,
   3600352804, 4094571909, 275423344, 430227734, 506948616,
   659060556, 883997877, 958139571, 1322822218, 1537002063,
   1747873779, 1955562222, 2024104815, 2227730452, 2361852424,
   2428436474, 2756734187, 3204031479, 3329325298]

/-- The initial hash value of FIPS 180-4 §5.3.3, written in decimal. -/
def H0 : List Nat :=
  [1779033703, 3144134277, 1013904242, 2773480762,
   1359893119, 2600822924, 528734635, 1541459225]

/-- Right rotation of a 32-bit word. -/
def rotr (n x : Nat) : Nat := ((x >>> n) ||| (x <<< (32 - n))) % 4294967296

/-- Addition modulo 2^32. -/
def add32 (a b : Nat) : Nat := (a + b) % 4294967296

def smallSigma0 (x : Nat) : Nat := (rotr 7 x) ^^^ (rotr 18 x) ^^^ (x >>> 3)

def smallSigma1 (x : Nat) : Nat := (rotr 17 x) ^^^ (rotr 19 x) ^^^ (x >>> 10)

def bigSigma0 (x : Nat) : Nat := (rotr 2 x) ^^^ (rotr 13 x) ^^^ (rotr 22 x)

def bigSigma1 (x : Nat) : Nat := (rotr 6 x) ^^^ (rotr 11 x) ^^^ (rotr 25 x)

def chFn (x y z : Nat) : Nat := (x &&& y) ^^^ ((x ^^^ 0xffffffff) &&& z)

def majFn (x y z : Nat) : Nat := (x &&& y) ^^^ (x &&& z) ^^^ (y &&& z)

/-- Big-endian 8-byte rendering of a (< 2^64) number. -/
def be64 (n : Nat) : List Nat :=
  [(n >>> 56) % 256, (n >>> 48) % 256, (n >>> 40) % 256, (n >>> 32) % 256,
   (n >>> 24) % 256, (n >>> 16) % 256, (n >>> 8) % 256, n % 256]

/-- Merkle–Damgård padding: append `0x80`, zeros to 56 mod 64, then the
bit length as 8 big-endian bytes. -/
def padBytes (msg : List Nat) : List Nat :=
  msg ++ [0x80] ++ List.replicate ((119 - msg.length % 64) % 64) 0
      ++ be64 (8 * msg.length)

/-- Group bytes big-endian into 32-bit words. -/
def toWords : List Nat → List Nat
  | a :: b :: c :: d :: rest => (((a * 256 + b) * 256 + c) * 256 + d) :: toWords rest
  | _ => []

/-- Split a word list into 16-word blocks. -/
def chunk16 : List Nat → List (List Nat)
  | w0 :: w1 :: w2 :: w3 :: w4 :: w5 :: w6 :: w7 ::
    w8 :: w9 :: w10 :: w11 :: w12 :: w13 :: w14 :: w15 :: rest =>
      [w0, w1, w2, w3, w4, w5, w6, w7, w8, w9, w10, w11, w12, w13, w14, w15]
        :: chunk16 rest
  | _ => []

/-- One message-schedule extension step, on the reversed schedule. -/
def extendStep (rw : List Nat) : List Nat :=
  add32 (add32 (smallSigma1 (rw.getD 1 0)) (rw.getD 6 0))
        (add32 (smallSigma0 (rw.getD 14 0)) (rw.getD 15 0)) :: rw

/-- The 64-entry message schedule of a 16-word block. -/
def schedule (w16 : List Nat) : List Nat :=
  (Nat.repeat extendStep 48 w16.reverse).reverse

/-- One compression round; the state is the 8-word list `[a,b,c,d,e,f,g,h]`. -/
def round (st : List Nat) (wk : Nat × Nat) : List Nat :=
  let a := st.getD 0 0
  let b := st.getD 1 0
  let c := st.getD 2 0
  let d := st.getD 3 0
  let e := st.getD 4 0
  let f := st.getD 5 0
  let g := st.getD 6 0
  let h := st.getD 7 0
  let t1 := add32 (add32 (add32 h (bigSigma1 e)) (add32 (chFn e f g) wk.2)) wk.1
  let t2 := add32 (bigSigma0 a) (majFn a b c)
  [add32 t1 t2, a, b, c, add32 d t1, e, f, g]

/-- Compress one 16-word block into the running hash. -/
def compress (h : List Nat) (w16 : List Nat) : List Nat :=
  let st := ((schedule w16).zip K).foldl round h
  (h.zip st).map fun p => add32 p.1 p.2

/-- SHA-256 of a byte list, as eight 32-bit words. -/
def sha256Words (msg : List Nat) : List Nat :=
  (chunk16 (toWords (padBytes msg))).foldl compress H0

def hexDigit (n : Nat) : Char :=
  if n < 10 then Char.ofNat (48 + n) else Char.ofNat (87 + n)

/-- Lowercase hex rendering of one 32-bit word (8 digits). -/
def wordHex (w : Nat) : List Char :=
  [hexDigit ((w >>> 28) % 16), hexDigit ((w >>> 24) % 16),
   hexDigit ((w >>> 20) % 16), hexDigit ((w >>> 16) % 16),
   hexDigit ((w >>> 12) % 16), hexDigit ((w >>> 8) % 16),
   hexDigit ((w >>> 4) % 16), hexDigit (w % 16)]

/-- ASCII bytes of a string (all hashed strings in the program are ASCII). -/
def strBytes (s : String) : List Nat := s.data.map Char.toNat

/-- SHA-256 of a string's bytes, as 64 lowercase hex characters — the model
of `format!("\x7b:x\x7d", Sha256::digest(...))`. -/
def sha256hex (s : String) : String :=
  String.mk ((sha256Words (strBytes s)).foldr (fun w acc => wordHex w ++ acc) [])

end SHA256

/-! ## Data model (`blockchain.rs` structs) -/

/-- `Transaction` from `blockchain.rs`. `from` and `to` are Lean keywords,
hence the field names `from_` and `to_`; `amount: f64` is modelled as `Int`
(see header). -/
structure Transaction where
  id : String
  from_ : String
  to_ : String
  amount : Int
  timestamp : String
  signature : List Nat
  deriving DecidableEq

/-- `Block` from `blockchain.rs`. -/
structure Block where
  hash : String
  previous_hash : String
  timestamp : String
  transactions : List Transaction
  poh_hash : String
  poh_count : Nat
  deriving DecidableEq

/-- `PoHVerifier` from `blockchain.rs`. -/
structure PoHVerifier where
  current_hash : String
  count : Nat
  tick_rate : Nat
  deriving DecidableEq

/-- `Blockchain` from `blockchain.rs`; the `HashMap` pool is an association
list with overwrite-on-insert semantics. -/
structure Blockchain where
  blocks : List Block
  pending_transactions : List Transaction
  transaction_pool : List (String × Transaction)
  poh_verifier : PoHVerifier
  deriving DecidableEq

/-- `HashMap::insert`: overwrite the entry if the key is present, otherwise
add a new one. -/
def poolInsert (m : List (String × Transaction)) (k : String) (t : Transaction) :
    List (String × Transaction) :=
  if (m.map Prod.fst).contains k then
    m.map fun p => if p.1 = k then (k, t) else p
  else
    m ++ [(k, t)]

/-- `HashMap::get`. -/
def poolGet (m : List (String × Transaction)) (k : String) : Option Transaction :=
  (m.find? fun p => p.1 = k).map Prod.snd

/-- The string `"0".repeat(64)`. -/
def zeros64 : String := String.mk (List.replicate 64 '0')

/-! ## serde_json serialization

`serde_json::to_string` emits the fields in declaration order. Timestamps
are the RFC 3339 strings carried in the model; none of the strings in the
model contain characters that JSON would escape. -/

def jsonStr (s : String) : String := "\"" ++ s ++ "\""

def jsonArr (items : List String) : String :=
  "[" ++ String.intercalate "," items ++ "]"

/-- `serde_json` output for an integral `f64` (`10.0`, `-5.0`). -/
def jsonF64 (a : Int) : String := toString a ++ ".0"

/-- `serde_json::to_string` of a `Transaction`. -/
def Transaction.toJson (t : Transaction) : String :=
  "\x7b\"id\":" ++ jsonStr t.id ++ ",\"from\":" ++ jsonStr t.from_ ++
  ",\"to\":" ++ jsonStr t.to_ ++ ",\"amount\":" ++ jsonF64 t.amount ++
  ",\"timestamp\":" ++ jsonStr t.timestamp ++ ",\"signature\":" ++
  jsonArr (t.signature.map toString) ++ "\x7d"

/-- `serde_json::to_string` of a `Block` (the input of the block hash;
note that it includes the `hash` field itself). -/
def Block.toJson (b : Block) : String :=
  "\x7b\"hash\":" ++ jsonStr b.hash ++
  ",\"previous_hash\":" ++ jsonStr b.previous_hash ++
  ",\"timestamp\":" ++ jsonStr b.timestamp ++
  ",\"transactions\":" ++ jsonArr (b.transactions.map Transaction.toJson) ++
  ",\"poh_hash\":" ++ jsonStr b.poh_hash ++
  ",\"poh_count\":" ++ toString b.poh_count ++ "\x7d"

/-! ## Operations (`impl Blockchain`, `impl PoHVerifier`) -/

/-- `PoHVerifier::new`. -/
def PoHVerifier.new : PoHVerifier :=
  { current_hash := zeros64, count := 0, tick_rate := 1000000 }

/-- `PoHVerifier::generate_hash`: hash the concatenation of the current
hash and the decimal text of the current count, store the new hash,
increment the count, and return the new (hash, count) pair alongside the
updated verifier state. -/
def PoHVerifier.generate_hash (v : PoHVerifier) : (String × Nat) × PoHVerifier :=
  let newHash := SHA256.sha256hex (v.current_hash ++ toString v.count)
  ((newHash, v.count + 1), { v with current_hash := newHash, count := v.count + 1 })

/-- `Blockchain::new`; the genesis timestamp (`Utc::now()`) is the
parameter `ts`. -/
def Blockchain.new (ts : String) : Blockchain :=
  { blocks := [{ hash := zeros64, previous_hash := zeros64, timestamp := ts,
                 transactions := [], poh_hash := zeros64, poh_count := 0 }],
    pending_transactions := [],
    transaction_pool := [],
    poh_verifier := PoHVerifier.new }

/-- `Blockchain::verify_transaction` — a stub in the source
(`// TODO: Implement transaction signature verification`): it always
returns `true`. -/
def Blockchain.verify_transaction (_bc : Blockchain) (_t : Transaction) : Bool :=
  true

/-- `Blockchain::add_transaction`: reject when `verify_transaction` fails
(it never does), otherwise insert into the pool map (overwriting any entry
with the same id) and push onto the pending queue. -/
def Blockchain.add_transaction (bc : Blockchain) (t : Transaction) :
    Except String Blockchain :=
  if !(bc.verify_transaction t) then
    .error "Invalid transaction signature"
  else
    .ok { bc with
            transaction_pool := poolInsert bc.transaction_pool t.id t,
            pending_transactions := bc.pending_transactions ++ [t] }

/-- `Blockchain::calculate_block_hash` (the `&self` receiver is unused in
the source): SHA-256 hex of the serde_json serialization of the block. -/
def Blockchain.calculate_block_hash (b : Block) : String :=
  SHA256.sha256hex b.toJson

/-- The block built inside `Blockchain::mine_block` once the previous
block is known: drain the pending queue, take one PoH tick, link to the
previous block's hash, and seal with `calculate_block_hash` applied to the
block whose `hash` field still holds `"".to_string()`. -/
def minedBlock (bc : Blockchain) (ts : String) (previous_block : Block) : Block :=
  let r := bc.poh_verifier.generate_hash
  let b0 : Block :=
    { hash := "", previous_hash := previous_block.hash, timestamp := ts,
      transactions := bc.pending_transactions, poh_hash := r.1.1, poh_count := r.1.2 }
  { b0 with hash := Blockchain.calculate_block_hash b0 }

/-- The blockchain state after `Blockchain::mine_block`: the sealed block
is appended, the pending queue is left drained, and the PoH verifier keeps
its advanced state. The transaction pool map is not touched. -/
def minedState (bc : Blockchain) (ts : String) (previous_block : Block) : Blockchain :=
  { bc with blocks := bc.blocks ++ [minedBlock bc ts previous_block],
            pending_transactions := [],
            poh_verifier := bc.poh_verifier.generate_hash.2 }

/-- `Blockchain::mine_block`; the block timestamp (`Utc::now()`) is the
parameter `ts`. `self.blocks.last().unwrap()` panics on an empty chain,
modelled by `none`. -/
def Blockchain.mine_block (bc : Blockchain) (ts : String) :
    Option (Block × Blockchain) :=
  match bc.blocks.getLast? with
  | none => none
  | some previous_block =>
      some (minedBlock bc ts previous_block, minedState bc ts previous_block)

/-! ## Operation sequences -/

/-- One external operation on the ledger. -/
inductive Op where
  | add (t : Transaction)
  | mine (ts : String)

/-- Apply one operation; a failed operation leaves the state unchanged. -/
def step (bc : Blockchain) : Op → Blockchain
  | .add t =>
      match bc.add_transaction t with
      | .ok bc' => bc'
      | .error _ => bc
  | .mine ts =>
      match bc.mine_block ts with
      | some r => r.2
      | none => bc

/-- Run a sequence of operations. -/
def run (bc : Blockchain) (ops : List Op) : Blockchain := ops.foldl step bc

/-! ## Chain verification, modelled from the spec -/

/-- Modelled from the spec: the repository's source contains no
chain-verification routine — `verify()` exists only in §4.4 of the spec.
Walking tail of the chain: with `prev` the block at index `i - 1`, check
that block `i` links to `prev.hash`, that its hash recomputes (the stored
hash of a sealed block is the hash of the block with its `hash` field
still empty), and that its PoH stamp is exactly one tick after `prev`'s
stamp; the first mismatch yields the offending index. -/
def verifyFrom : Nat → Block → List Block → Except Nat Unit
  | _, _, [] => .ok ()
  | i, prev, b :: rest =>
      if b.previous_hash = prev.hash
          ∧ b.hash = Blockchain.calculate_block_hash { b with hash := "" }
          ∧ b.poh_hash = SHA256.sha256hex (prev.poh_hash ++ toString prev.poh_count)
          ∧ b.poh_count = prev.poh_count + 1
      then verifyFrom (i + 1) b rest
      else .error i

/-- Modelled from the spec: `verify()` walks the chain from genesis,
recomputing each block's hash and the hash-clock chain across all block
stamps, and confirms `previous_hash` linkage; the first mismatch yields a
CorruptionError naming the offending index. The genesis block's hash is
the fixed all-zero constant, so the walk starts checking at index 1. -/
def Blockchain.verify (bc : Blockchain) : Except Nat Unit :=
  match bc.blocks with
  | [] => .ok ()
  | g :: rest => verifyFrom 1 g rest

/-! ## The reachable-state invariant -/

/-- Invariant of every state reachable from `Blockchain::new` by
`add_transaction` / `mine_block`:
* the chain is nonempty, and every non-genesis block's stored hash is
  `calculate_block_hash` of the block with its `hash` field emptied;
* the recorded PoH counts are exactly `0, 1, 2, ...` down the chain;
* the verifier's count is one behind the chain length;
* consecutive blocks are linked by `previous_hash`;
* the last block's PoH stamp equals the verifier's current state;
* consecutive blocks' PoH stamps are one tick apart. -/
def Inv (bc : Blockchain) : Prop :=
  (∃ g rest, bc.blocks = g :: rest ∧
      ∀ b ∈ rest, b.hash = Blockchain.calculate_block_hash { b with hash := "" }) ∧
  bc.blocks.map Block.poh_count = List.range bc.blocks.length ∧
  bc.poh_verifier.count + 1 = bc.blocks.length ∧
  List.Chain' (fun x y => y.previous_hash = x.hash) bc.blocks ∧
  bc.blocks.getLast?.map (fun b => (b.poh_hash, b.poh_count)) =
    some (bc.poh_verifier.current_hash, bc.poh_verifier.count) ∧
  List.Chain'
    (fun x y => y.poh_hash = SHA256.sha256hex (x.poh_hash ++ toString x.poh_count) ∧
       y.poh_count = x.poh_count + 1) bc.blocks

/-! ## Concrete inputs used by the counterexamples and bug witnesses -/

/-- A well-formed transaction. -/
def txA : Transaction :=
  { id := "idA", from_ := "alice", to_ := "bob", amount := 10,
    timestamp := "2024-01-01T00:00:00Z", signature := [1, 2, 3] }

/-- A second well-formed transaction with a different id. -/
def txB : Transaction :=
  { id := "idB", from_ := "bob", to_ := "carol", amount := 7,
    timestamp := "2024-01-01T00:00:01Z", signature := [4, 5] }

/-- A transaction that reuses `txA`'s identifier with a different amount. -/
def txA2 : Transaction :=
  { id := "idA", from_ := "alice", to_ := "bob", amount := 20,
    timestamp := "2024-01-01T00:00:02Z", signature := [1, 2, 3] }

/-- A transaction with a non-positive amount. -/
def txNeg : Transaction :=
  { id := "idNeg", from_ := "alice", to_ := "bob", amount := -5,
    timestamp := "2024-01-01T00:00:03Z", signature := [9] }

/-- A concrete honestly-built chain: one admitted transaction, one mined
block. -/
def demoChain : Blockchain :=
  run (Blockchain.new "2024-01-01T00:00:00Z")
    [Op.add txA, Op.mine "2024-01-01T00:01:00Z"]

/-- `demoChain` with one byte flipped inside the sealed transaction of
block 1: the last byte of the transaction id turns "idA" into "idB". -/
def demoTampered : Blockchain :=
  { demoChain with
      blocks := demoChain.blocks.map fun b =>
        if b.poh_count = 1 then
          { b with transactions := b.transactions.map fun t => { t with id := "idB" } }
        else b }

end SampleChain

/-- Sanity check of the SHA-256 embedding against the FIPS test vector for
the empty message. -/
theorem sampleChain_sha256_empty_vector :
    SampleChain.SHA256.sha256hex "" =
      "e3b0c44298fc1c149afbf4c8996fb92427ae41e4649b934ca495991b7852b855" := by
  decide

/-- Sanity check of the SHA-256 embedding against the FIPS test vector for
the message "abc". -/
theorem sampleChain_sha256_abc_vector :
    SampleChain.SHA256.sha256hex "abc" =
      "ba7816bf8f01cfea414140de5dae2223b00361a396177a9cb410ff61f20015ad" := by
  decide

namespace SampleChain

/-! ## Unfolding lemmas for the operations -/

theorem add_transaction_eq (bc : Blockchain) (t : Transaction) :
    bc.add_transaction t =
      Except.ok { bc with
        transaction_pool := poolInsert bc.transaction_pool t.id t,
        pending_transactions := bc.pending_transactions ++ [t] } := rfl

theorem step_add (bc : Blockchain) (t : Transaction) :
    step bc (Op.add t) =
      { bc with
        transaction_pool := poolInsert bc.transaction_pool t.id t,
        pending_transactions := bc.pending_transactions ++ [t] } := rfl

theorem mine_block_eq (bc : Blockchain) (ts : String) (lastB : Block)
    (h : bc.blocks.getLast? = some lastB) :
    bc.mine_block ts = some (minedBlock bc ts lastB, minedState bc ts lastB) := by
  unfold Blockchain.mine_block
  rw [h]

theorem step_mine (bc : Blockchain) (ts : String) (lastB : Block)
    (h : bc.blocks.getLast? = some lastB) :
    step bc (Op.mine ts) = minedState bc ts lastB := by
  simp [step, mine_block_eq bc ts lastB h]

theorem run_cons (bc : Blockchain) (op : Op) (ops : List Op) :
    run bc (op :: ops) = run (step bc op) ops := rfl

theorem minedBlock_previous_hash (bc : Blockchain) (ts : String) (p : Block) :
    (minedBlock bc ts p).previous_hash = p.hash := rfl

theorem minedBlock_poh_count (bc : Blockchain) (ts : String) (p : Block) :
    (minedBlock bc ts p).poh_count = bc.poh_verifier.count + 1 := rfl

theorem minedBlock_poh_hash (bc : Blockchain) (ts : String) (p : Block) :
    (minedBlock bc ts p).poh_hash =
      SHA256.sha256hex (bc.poh_verifier.current_hash ++ toString bc.poh_verifier.count) := rfl

theorem minedBlock_transactions (bc : Blockchain) (ts : String) (p : Block) :
    (minedBlock bc ts p).transactions = bc.pending_transactions := rfl

theorem minedBlock_roundtrip (bc : Blockchain) (ts : String) (p : Block) :
    (minedBlock bc ts p).hash =
      Blockchain.calculate_block_hash { minedBlock bc ts p with hash := "" } := rfl

theorem minedState_blocks (bc : Blockchain) (ts : String) (p : Block) :
    (minedState bc ts p).blocks = bc.blocks ++ [minedBlock bc ts p] := rfl

theorem minedState_pending (bc : Blockchain) (ts : String) (p : Block) :
    (minedState bc ts p).pending_transactions = [] := rfl

theorem minedState_pool (bc : Blockchain) (ts : String) (p : Block) :
    (minedState bc ts p).transaction_pool = bc.transaction_pool := rfl

theorem minedState_count (bc : Blockchain) (ts : String) (p : Block) :
    (minedState bc ts p).poh_verifier.count = bc.poh_verifier.count + 1 := rfl

theorem minedState_current_hash (bc : Blockchain) (ts : String) (p : Block) :
    (minedState bc ts p).poh_verifier.current_hash =
      SHA256.sha256hex (bc.poh_verifier.current_hash ++ toString bc.poh_verifier.count) := rfl

/-! ## The invariant holds in every reachable state -/

theorem inv_new (ts : String) : Inv (Blockchain.new ts) := by
  refine ⟨⟨_, [], rfl, by simp⟩, rfl, rfl, ?_, rfl, ?_⟩ <;>
    simp [Blockchain.new]

theorem inv_step (bc : Blockchain) (op : Op) (h : Inv bc) : Inv (step bc op) := by
  obtain ⟨⟨g, rest, hb, hrt⟩, hmap, hcnt, hlink, hstamp, hpoh⟩ := h
  cases op with
  | add t =>
      exact ⟨⟨g, rest, hb, hrt⟩, hmap, hcnt, hlink, hstamp, hpoh⟩
  | mine ts =>
      obtain ⟨lastB, hlast⟩ : ∃ lb, bc.blocks.getLast? = some lb := by
        rw [hb]
        exact ⟨_, List.getLast?_eq_getLast _ (by simp)⟩
      rw [step_mine bc ts lastB hlast]
      rw [hlast] at hstamp
      simp only [Option.map_some', Option.some.injEq, Prod.mk.injEq] at hstamp
      obtain ⟨hsh, hsc⟩ := hstamp
      refine ⟨⟨g, rest ++ [minedBlock bc ts lastB], ?_, ?_⟩, ?_, ?_, ?_, ?_, ?_⟩
      · rw [minedState_blocks, hb, List.cons_append]
      · intro b hbmem
        rcases List.mem_append.mp hbmem with hmem | hmem
        · exact hrt b hmem
        · rw [List.mem_singleton.mp hmem]
          exact minedBlock_roundtrip bc ts lastB
      · rw [minedState_blocks, List.map_append, List.length_append, hmap]
        simp only [List.map_cons, List.map_nil, minedBlock_poh_count,
          List.length_cons, List.length_nil]
        rw [hcnt, List.range_succ]
      · rw [minedState_blocks, List.length_append, minedState_count]
        simp [hcnt]
      · rw [minedState_blocks, List.chain'_append]
        refine ⟨hlink, List.chain'_singleton _, ?_⟩
        intro x hx y hy
        rw [hlast] at hx
        simp only [Option.mem_def, Option.some.injEq] at hx
        simp only [List.head?_cons, Option.mem_def, Option.some.injEq] at hy
        subst hx
        subst hy
        exact minedBlock_previous_hash bc ts lastB
      · rw [minedState_blocks, List.getLast?_concat]
        simp [minedBlock_poh_hash, minedBlock_poh_count,
          minedState_count, minedState_current_hash]
      · rw [minedState_blocks, List.chain'_append]
        refine ⟨hpoh, List.chain'_singleton _, ?_⟩
        intro x hx y hy
        rw [hlast] at hx
        simp only [Option.mem_def, Option.some.injEq] at hx
        simp only [List.head?_cons, Option.mem_def, Option.some.injEq] at hy
        subst hx
        subst hy
        constructor
        · rw [minedBlock_poh_hash, hsh, hsc]
        · rw [minedBlock_poh_count, hsc]

theorem inv_run (bc : Blockchain) (ops : List Op) (h : Inv bc) : Inv (run bc ops) := by
  induction ops generalizing bc with
  | nil => exact h
  | cons op ops ih => exact ih _ (inv_step _ _ h)

theorem inv_reachable (ts : String) (ops : List Op) :
    Inv (run (Blockchain.new ts) ops) :=
  inv_run _ _ (inv_new ts)

end SampleChain

namespace SampleChain

/-! ## Derived facts used by several claims -/

theorem step_mine_length (bc : Blockchain) (ts : String) (h : Inv bc) :
    (step bc (Op.mine ts)).blocks.length = bc.blocks.length + 1 := by
  obtain ⟨⟨g, rest, hb, -⟩, -, -, -, -, -⟩ := h
  obtain ⟨lastB, hlast⟩ : ∃ lb, bc.blocks.getLast? = some lb := by
    rw [hb]
    exact ⟨_, List.getLast?_eq_getLast _ (by simp)⟩
  rw [step_mine bc ts lastB hlast, minedState_blocks, List.length_append]
  rfl

theorem run_mines_length (tss : List String) (bc : Blockchain) (h : Inv bc) :
    (run bc (tss.map Op.mine)).blocks.length = bc.blocks.length + tss.length := by
  induction tss generalizing bc with
  | nil => rfl
  | cons t rest ih =>
      have h1 := step_mine_length bc t h
      have h2 := ih (step bc (Op.mine t)) (inv_step _ _ h)
      rw [List.map_cons, run_cons, h2, h1]
      simp only [List.length_cons]
      omega

theorem step_count_mono (bc : Blockchain) (op : Op) :
    bc.poh_verifier.count ≤ (step bc op).poh_verifier.count := by
  cases op with
  | add t => exact Nat.le_refl _
  | mine ts =>
      cases hlast : bc.blocks.getLast? with
      | none => simp [step, Blockchain.mine_block, hlast]
      | some lb =>
          rw [step_mine bc ts lb hlast, minedState_count]
          exact Nat.le_succ _

theorem verifyFrom_ok : ∀ (l : List Block) (i : Nat) (prev : Block),
    (∀ b ∈ l, b.hash = Blockchain.calculate_block_hash { b with hash := "" }) →
    List.Chain' (fun x y => y.previous_hash = x.hash) (prev :: l) →
    List.Chain'
      (fun x y => y.poh_hash = SHA256.sha256hex (x.poh_hash ++ toString x.poh_count) ∧
        y.poh_count = x.poh_count + 1) (prev :: l) →
    verifyFrom i prev l = .ok ()
  | [], _, _, _, _, _ => rfl
  | b :: rest, i, prev, hrt, hlink, hpoh => by
      rw [List.chain'_cons] at hlink hpoh
      obtain ⟨hl1, hl2⟩ := hlink
      obtain ⟨⟨hp1, hp2⟩, hp3⟩ := hpoh
      simp only [verifyFrom]
      rw [if_pos ⟨hl1, hrt b (List.mem_cons_self _ _), hp1, hp2⟩]
      exact verifyFrom_ok rest (i + 1) b
        (fun b' hb' => hrt b' (List.mem_cons_of_mem _ hb')) hl2 hp3

/-- The spec-modelled `verify()` accepts every chain the ledger actually
produces. -/
theorem verify_sound (ts : String) (ops : List Op) :
    (run (Blockchain.new ts) ops).verify = .ok () := by
  obtain ⟨⟨g, rest, hb, hrt⟩, -, -, hlink, -, hpoh⟩ := inv_reachable ts ops
  rw [hb] at hlink hpoh
  simp only [Blockchain.verify, hb]
  exact verifyFrom_ok rest 1 g hrt hlink hpoh

end SampleChain

namespace SampleChain

/-! ## Claim theorems -/

/-- C1: starting from the freshly constructed chain (`Blockchain::new`)
and after any sequence of `add_transaction` and `mine_block` operations,
every block at index `i > 0` has `previous_hash` equal to the `hash` field
of the block at index `i - 1`. -/
theorem C1_hash_linkage (ts : String) (ops : List Op) (i : Nat)
    (h : i + 1 < (run (Blockchain.new ts) ops).blocks.length) :
    ((run (Blockchain.new ts) ops).blocks.get ⟨i + 1, h⟩).previous_hash =
      ((run (Blockchain.new ts) ops).blocks.get ⟨i, Nat.lt_of_succ_lt h⟩).hash := by
  obtain ⟨-, -, -, hlink, -, -⟩ := inv_reachable ts ops
  exact List.chain'_iff_get.mp hlink i (by omega)

/-- Witness for C1 at a concrete input: one mined block linked to the
genesis block. -/
theorem C1_hash_linkage_witness :
    ((run (Blockchain.new "2024-01-01T00:00:00Z")
        [Op.mine "2024-01-01T00:01:00Z"]).blocks.get ⟨1, by decide⟩).previous_hash =
      ((run (Blockchain.new "2024-01-01T00:00:00Z")
        [Op.mine "2024-01-01T00:01:00Z"]).blocks.get ⟨0, by decide⟩).hash :=
  C1_hash_linkage "2024-01-01T00:00:00Z" [Op.mine "2024-01-01T00:01:00Z"] 0 (by decide)

/-- C6: the `poh_count` values down any reachable chain are exactly
`0, 1, 2, ...` (so strictly increasing by exactly 1 block-to-block); after
`N` sequential `mine_block` calls from a fresh chain the recorded counts
are `0, ..., N`; and no operation ever decreases the clock count. -/
theorem C6_monotonic_poh_counts (ts : String) (ops : List Op) :
    ((run (Blockchain.new ts) ops).blocks.map Block.poh_count =
      List.range (run (Blockchain.new ts) ops).blocks.length) ∧
    (∀ tss : List String,
      (run (Blockchain.new ts) (tss.map Op.mine)).blocks.map Block.poh_count =
        List.range (tss.length + 1)) ∧
    (∀ op : Op,
      (run (Blockchain.new ts) ops).poh_verifier.count ≤
        (step (run (Blockchain.new ts) ops) op).poh_verifier.count) := by
  refine ⟨?_, ?_, ?_⟩
  · obtain ⟨-, hmap, -, -, -, -⟩ := inv_reachable ts ops
    exact hmap
  · intro tss
    obtain ⟨-, hmap, -, -, -, -⟩ := inv_reachable ts (tss.map Op.mine)
    have hlen := run_mines_length tss (Blockchain.new ts) (inv_new ts)
    have hone : (Blockchain.new ts).blocks.length = 1 := rfl
    rw [hmap, hlen, hone, Nat.add_comm]
  · intro op
    exact step_count_mono _ op

/-- C7: one call to `PoHVerifier::generate_hash` on state `(h, c)` returns
the pair `(SHA-256-hex (h ++ decimal c), c + 1)`, stores exactly that pair
in the verifier state, and leaves the tick rate unchanged. -/
theorem C7_tick_contract (v : PoHVerifier) :
    v.generate_hash.1.1 = SHA256.sha256hex (v.current_hash ++ toString v.count) ∧
    v.generate_hash.1.2 = v.count + 1 ∧
    v.generate_hash.2.current_hash = v.generate_hash.1.1 ∧
    v.generate_hash.2.count = v.generate_hash.1.2 ∧
    v.generate_hash.2.tick_rate = v.tick_rate :=
  ⟨rfl, rfl, rfl, rfl, rfl⟩

/-- C8: immediately after `Blockchain::new()` the chain holds exactly one
block whose `previous_hash` is 64 zero characters, whose `poh_count` is 0
and whose transaction list is empty; the pending queue and the pool map
are empty. -/
theorem C8_initialization (ts : String) :
    ∃ g : Block, (Blockchain.new ts).blocks = [g] ∧
      g.previous_hash = zeros64 ∧
      g.poh_count = 0 ∧
      g.transactions = [] ∧
      (Blockchain.new ts).pending_transactions = [] ∧
      (Blockchain.new ts).transaction_pool = [] ∧
      zeros64.length = 64 ∧
      zeros64.data.all (fun c => c == '0') = true :=
  ⟨_, rfl, rfl, rfl, rfl, rfl, rfl, by decide, by decide⟩

/-- C10: the blocks vector of any reachable state is nonempty, so
`mine_block`'s read of the latest block (`last().unwrap()`) always
succeeds — the `none` branch is unreachable from `Blockchain::new`. -/
theorem C10_latest_block_exists (ts : String) (ops : List Op) (tm : String) :
    (run (Blockchain.new ts) ops).blocks ≠ [] ∧
    (run (Blockchain.new ts) ops).mine_block tm ≠ none := by
  obtain ⟨⟨g, rest, hb, -⟩, -, -, -, -, -⟩ := inv_reachable ts ops
  obtain ⟨lastB, hlast⟩ :
      ∃ lb, (run (Blockchain.new ts) ops).blocks.getLast? = some lb := by
    rw [hb]
    exact ⟨_, List.getLast?_eq_getLast _ (by simp)⟩
  refine ⟨?_, ?_⟩
  · rw [hb]
    exact List.cons_ne_nil _ _
  · rw [mine_block_eq _ tm lastB hlast]
    exact fun hcon => Option.noConfusion hcon

end SampleChain

namespace SampleChain

/-- C2 counterexample: the genesis block is sealed with the fixed all-zero
hash, which `calculate_block_hash` does not reproduce — neither on the
block as stored nor with its `hash` field cleared. -/
theorem C2_counterexample :
    ∃ g : Block, (Blockchain.new "2024-01-01T00:00:00Z").blocks = [g] ∧
      Blockchain.calculate_block_hash g ≠ g.hash ∧
      Blockchain.calculate_block_hash { g with hash := "" } ≠ g.hash := by
  refine ⟨_, rfl, ?_, ?_⟩ <;> decide

/-- C2 (amended): for every block appended by `mine_block` (every
reachable block except genesis), recomputing the hash of the block with
its `hash` field reset to the empty string — exactly the input
`calculate_block_hash` was applied to at sealing time — reproduces the
stored hash. -/
theorem C2_hash_roundtrip (ts : String) (ops : List Op) (i : Nat)
    (h : i < (run (Blockchain.new ts) ops).blocks.length) (h1 : 1 ≤ i) :
    ((run (Blockchain.new ts) ops).blocks.get ⟨i, h⟩).hash =
      Blockchain.calculate_block_hash
        { (run (Blockchain.new ts) ops).blocks.get ⟨i, h⟩ with hash := "" } := by
  obtain ⟨⟨g, rest, hb, hrt⟩, -, -, -, -, -⟩ := inv_reachable ts ops
  apply hrt
  cases i with
  | zero => omega
  | succ j =>
      rw [List.get_of_eq hb]
      exact List.get_mem rest j (by rw [hb] at h; simpa using h)

/-- Witness for C2 (amended) at a concrete input: the first mined block. -/
theorem C2_hash_roundtrip_witness :
    ((run (Blockchain.new "2024-01-01T00:00:00Z")
        [Op.mine "2024-01-01T00:01:00Z"]).blocks.get ⟨1, by decide⟩).hash =
      Blockchain.calculate_block_hash
        { (run (Blockchain.new "2024-01-01T00:00:00Z")
            [Op.mine "2024-01-01T00:01:00Z"]).blocks.get ⟨1, by decide⟩ with
          hash := "" } :=
  C2_hash_roundtrip "2024-01-01T00:00:00Z" [Op.mine "2024-01-01T00:01:00Z"] 1
    (by decide) (by decide)

/-- C3 counterexample: after admitting `txA` then `txB` and mining once,
the block is `[txA, txB]` and the pending queue is drained, but the pool's
identifier membership map still holds both identifiers — `mine_block`
never removes drained identifiers from `transaction_pool`, so the pool is
not empty afterward as the claim demands. -/
theorem C3_counterexample :
    ∃ bc1 bc2 blk bc3,
      (Blockchain.new "2024-01-01T00:00:00Z").add_transaction txA = Except.ok bc1 ∧
      bc1.add_transaction txB = Except.ok bc2 ∧
      bc2.mine_block "2024-01-01T00:01:00Z" = some (blk, bc3) ∧
      blk.transactions = [txA, txB] ∧
      bc3.pending_transactions = [] ∧
      poolGet bc3.transaction_pool "idA" = some txA ∧
      poolGet bc3.transaction_pool "idB" = some txB ∧
      bc3.transaction_pool ≠ [] := by
  refine ⟨_, _, _, _, rfl, rfl, rfl, by decide, rfl, by decide, by decide, by decide⟩

/-- C3 (amended): admitting `A` then `B` into a fresh pool and mining once
yields a block whose transaction list is exactly `[A, B]`, and the pending
queue is empty afterward; the pool's identifier map, however, is left
untouched by mining (the drained identifiers are not removed). -/
theorem C3_fifo_drain (ts tm : String) (A B : Transaction) :
    ∃ bc1 bc2 blk bc3,
      (Blockchain.new ts).add_transaction A = Except.ok bc1 ∧
      bc1.add_transaction B = Except.ok bc2 ∧
      bc2.mine_block tm = some (blk, bc3) ∧
      blk.transactions = [A, B] ∧
      bc3.pending_transactions = [] ∧
      bc3.transaction_pool = bc2.transaction_pool := by
  refine ⟨_, _, _, _, rfl, rfl, rfl, rfl, rfl, rfl⟩

/-- C4: the code admits a duplicate identifier: the second
`add_transaction` with the same id returns `Ok` (not a validation error),
overwrites the pool-map entry of the first occurrence, and appends a
second copy to the pending queue. -/
theorem C4_duplicate_not_rejected :
    txA2.id = txA.id ∧ txA2 ≠ txA ∧
    ∃ bc1 bc2,
      (Blockchain.new "2024-01-01T00:00:00Z").add_transaction txA = Except.ok bc1 ∧
      bc1.add_transaction txA2 = Except.ok bc2 ∧
      poolGet bc2.transaction_pool "idA" = some txA2 ∧
      bc2.pending_transactions = [txA, txA2] := by
  refine ⟨rfl, by decide, _, _, rfl, rfl, by decide, by decide⟩

/-- C5: the code admits a transaction whose amount is ≤ 0: the
`add_transaction` call returns `Ok`, the transaction enters the pool map
and the pending queue, and the next mined block contains it. -/
theorem C5_nonpositive_not_rejected :
    txNeg.amount ≤ 0 ∧
    ∃ bc1 blk bc2,
      (Blockchain.new "2024-01-01T00:00:00Z").add_transaction txNeg = Except.ok bc1 ∧
      poolGet bc1.transaction_pool "idNeg" = some txNeg ∧
      bc1.pending_transactions = [txNeg] ∧
      bc1.mine_block "2024-01-01T00:01:00Z" = some (blk, bc2) ∧
      blk.transactions = [txNeg] := by
  refine ⟨by decide, _, _, _, rfl, by decide, by decide, rfl, by decide⟩

/-- The spec-modelled `verify()` on concrete chains: it accepts the
honestly built `demoChain` and, after one byte inside the sealed
transaction of block 1 is flipped, reports the corruption at index 1. -/
theorem verify_tamper_demo :
    demoChain.verify = .ok () ∧ demoTampered.verify = .error 1 :=
  ⟨verify_sound "2024-01-01T00:00:00Z" [Op.add txA, Op.mine "2024-01-01T00:01:00Z"],
   by rfl⟩

end SampleChain
